import Mathlib

/-!
Verification of the arxiv-daily pipeline (`daily_arxiv.py`).

The source file is a single Python script.  We shallowly embed the pure
content of its functions over `List Char` (Python `str` values), with
Python dicts modelled as association lists in insertion order (Python
dicts preserve insertion order; keys are unique).  External collaborators
(the arXiv index, the PapersWithCode resolver, the file system) are
modelled as explicit parameters, following the spec's contract for them:
the resolver is a function returning `Except Unit (Option Chars)` where
`.error ()` stands for any exception raised inside the corresponding
`try` block (network failure, non-2xx via `raise_for_status`, malformed
JSON), `.ok none` for a response without an `"official"` entry and
`.ok (some url)` for an official code link.
-/

/-- Python strings, modelled as lists of characters. -/
abbrev Chars := List Char

/-- Coerce a Lean string literal to the `Chars` model. -/
def str (s : String) : Chars := s.data

/-- An entry mapping of one topic: Python dict id → rendered string,
as an association list in insertion order. -/
abbrev Entries := List (Chars × Chars)

/-- A Record Store document: Python dict topic → entries. -/
abbrev Doc := List (Chars × Entries)

/-- The code-link resolver (PapersWithCode lookup), abstracted:
`.error ()` = an exception inside the `try` block, `.ok none` = no
`"official"` link in the payload, `.ok (some url)` = official link. -/
abbrev Resolver := Chars → Except Unit (Option Chars)

/-- Python `s.find(c)` for a single character: index of the first
occurrence, `none` for Python's `-1`. -/
def pyFind (c : Char) : Chars → Option Nat
  | [] => none
  | x :: xs => if x = c then some 0 else (pyFind c xs).map (· + 1)

/-- `daily_arxiv.py` lines 206-207:
`version_pos = raw_paper_id.find("v")`;
`clean_paper_id = raw_paper_id[:version_pos] if version_pos != -1 else raw_paper_id`.
Truncates the identifier at the first occurrence of `v`. -/
def stripVersion (s : Chars) : Chars :=
  match pyFind 'v' s with
  | some i => s.take i
  | none => s

/-- Python `str.isspace` characters relevant to `str.split()` (ASCII). -/
def pyIsSpace (c : Char) : Bool :=
  c = ' ' ∨ c = '\t' ∨ c = '\n' ∨ c = '\r' ∨ c = '\x0b' ∨ c = '\x0c'

/-- Worker for Python `s.split()` (split on whitespace runs, discarding
empty tokens).  `cur` is the current token accumulated in reverse. -/
def splitWsGo : Chars → Chars → List Chars
  | cur, [] => if cur.isEmpty then [] else [cur.reverse]
  | cur, c :: cs =>
      if pyIsSpace c then
        if cur.isEmpty then splitWsGo [] cs else cur.reverse :: splitWsGo [] cs
      else splitWsGo (c :: cur) cs

/-- Python `s.split()` with no separator argument. -/
def pySplitWs (s : Chars) : List Chars := splitWsGo [] s

/-- `daily_arxiv.py` lines 50-53: a keyword is wrapped in double quotes
when `len(filter_word.split()) > 1`, otherwise kept bare. -/
def formatKeywordTerm (w : Chars) : Chars :=
  if 1 < (pySplitWs w).length then '"' :: w ++ ['"'] else w

/-- `daily_arxiv.py` `parse_filter_keywords` (lines 34-59): the loop
appends each (possibly quoted) keyword and inserts `" OR "` after every
keyword except the last. -/
def parse_filter_keywords : List Chars → Chars
  | [] => []
  | [w] => formatKeywordTerm w
  | w :: ws => formatKeywordTerm w ++ str " OR " ++ parse_filter_keywords ws

/-- The shared store-loading pattern of `update_papers_json_file`
(lines 329-331), `update_paper_code_links` (lines 285-287) and
`convert_json_to_markdown` (lines 391-393):
`with open(path, "r") as f: content = f.read();
 data = json.loads(content) if content else {}`.
The backing file is modelled as `Option String` (`none` = absent file,
in which case Python's `open` raises `FileNotFoundError`, modelled as
`.error ()`); `parse` abstracts `json.loads`, which may itself raise. -/
def readStoreFile (file : Option String) (parse : String → Except Unit Doc) :
    Except Unit Doc :=
  match file with
  | none => Except.error ()
  | some content => if content = "" then Except.ok [] else parse content

-- #### Record Store merge (`update_papers_json_file`, lines 320-345)

/-- First-match lookup in an association list (Python `d[k]` / `k in d`). -/
def dictGet? (d : List (Chars × α)) (k : Chars) : Option α :=
  match d with
  | [] => none
  | (k', v) :: rest => if k' = k then some v else dictGet? rest k

/-- Python dict assignment `d[k] = v`: overwrite in place if the key is
present, else append at the end (insertion order). -/
def dictSet (d : List (Chars × α)) (k : Chars) (v : α) : List (Chars × α) :=
  match d with
  | [] => [(k, v)]
  | (k', v') :: rest => if k' = k then (k, v) :: rest else (k', v') :: dictSet rest k v

/-- Python `existing.update(new)`: assign each key of `new` in order. -/
def dictUpdate (d new : List (Chars × α)) : List (Chars × α) :=
  new.foldl (fun acc kv => dictSet acc kv.1 kv.2) d

/-- One step of the merge loop body (lines 335-341): merge one topic's
new entries into the store. -/
def mergeTopic (existing : Doc) (topic : Chars) (newPapers : Entries) : Doc :=
  match dictGet? existing topic with
  | some old => dictSet existing topic (dictUpdate old newPapers)
  | none => existing ++ [(topic, newPapers)]

/-- `update_papers_json_file` (lines 334-341), pure core: fold the merge
over the list of per-topic dicts fetched this run (the surrounding I/O —
`readStoreFile` before, full-document rewrite after — is modelled
separately). -/
def update_papers_json_file (existing : Doc) (newPapersData : List Doc) : Doc :=
  newPapersData.foldl
    (fun acc newTopicData =>
      newTopicData.foldl (fun a te => mergeTopic a te.1 te.2) acc)
    existing

/-- Entry lookup through the store: topic, then identifier. -/
def storeGet? (doc : Doc) (t id : Chars) : Option Chars :=
  (dictGet? doc t).bind (fun es => dictGet? es id)

/-- Last-match lookup in an association list (the value the last
assignment of `k` would leave behind). -/
def lastGet? (d : List (Chars × α)) (k : Chars) : Option α :=
  match d with
  | [] => none
  | (k', v) :: rest =>
      match lastGet? rest k with
      | some w => some w
      | none => if k' = k then some v else none

/-- The value identifier `id` of topic `t` receives from a flattened
batch, scanning for the last write (later batch elements win). -/
def flatLast? (flat : List (Chars × Entries)) (t id : Chars) : Option Chars :=
  match flat with
  | [] => none
  | (t', es) :: rest =>
      match flatLast? rest t id with
      | some w => some w
      | none => if t' = t then lastGet? es id else none


-- #### Item fetch (`fetch_daily_arxiv_papers`, lines 166-261)

/-- One fetched arXiv item, restricted to the fields that flow into the
rendered strings (`abstract`, `primary_category` and `publish_date` are
computed by the source but only logged).  `update_date` carries the
`str()` form of `paper.updated.date()`; `comment` is `paper.comment`,
`none` for Python `None`. -/
structure Item where
  raw_id : Chars
  title : Chars
  authors : List Chars
  update_date : Chars
  comment : Option Chars

/-- Python `", ".join(...)`-style join with a separator. -/
def joinSep (sep : Chars) : List Chars → Chars
  | [] => []
  | [x] => x
  | x :: xs => x ++ sep ++ joinSep sep xs

/-- `format_authors` (lines 99-117). -/
def format_authors (authors : List Chars) (only_first_author : Bool) : Chars :=
  if only_first_author then
    match authors with
    | [] => str "Unknown Author"
    | a :: _ => a ++ str " et.al."
  else
    match authors with
    | [] => str "Unknown Authors"
    | _ => joinSep (str ", ") authors

/-- The `try`/`except` around the PapersWithCode request in the fetch
(lines 215-231): an exception is caught and leaves `code_url = None`;
otherwise `code_url` is the official link when the payload has one. -/
def getCodeUrl (resolver : Resolver) (id : Chars) : Option Chars :=
  match resolver id with
  | Except.error _ => none
  | Except.ok r => r

/-- A resolver that never raises: errors are interpreted as "no code
link" (what the `except` branches of the source do). -/
def suppressErrors (resolver : Resolver) : Resolver :=
  fun id => Except.ok (getCodeUrl resolver id)

/-- `ARXIV_BASE_URL` (line 22). -/
def ARXIV_BASE_URL : Chars := str "http://arxiv.org/"

/-- The table-row f-strings of the fetch (lines 235-243). -/
def mkTableRow (update_date title first_author clean_id clean_url : Chars)
    (code_url : Option Chars) : Chars :=
  match code_url with
  | some u =>
      str "|**" ++ update_date ++ str "**|**" ++ title ++ str "**|"
        ++ first_author ++ str "|[" ++ clean_id ++ str "](" ++ clean_url
        ++ str ")|**[link](" ++ u ++ str ")**|\n"
  | none =>
      str "|**" ++ update_date ++ str "**|**" ++ title ++ str "**|"
        ++ first_author ++ str "|[" ++ clean_id ++ str "](" ++ clean_url
        ++ str ")|null|\n"

/-- The list-item f-strings of the fetch (lines 246-259), including the
comment clause (`if paper_comments:` — Python falsiness, so an empty
comment string behaves like `None`). -/
def mkListItem (update_date title first_author clean_url : Chars)
    (code_url : Option Chars) (comment : Option Chars) : Chars :=
  (match code_url with
   | some u =>
       str "- " ++ update_date ++ str ", **" ++ title ++ str "**, "
         ++ first_author ++ str ", Paper: [" ++ clean_url ++ str "]("
         ++ clean_url ++ str "), Code: **[" ++ u ++ str "](" ++ u ++ str ")**"
   | none =>
       str "- " ++ update_date ++ str ", **" ++ title ++ str "**, "
         ++ first_author ++ str ", Paper: [" ++ clean_url ++ str "]("
         ++ clean_url ++ str ")")
  ++ (match comment with
      | some c => if c = [] then str "\n" else str ", " ++ c ++ str "\n"
      | none => str "\n")

/-- Body of the per-item loop of the fetch (lines 190-259). -/
def fetchItemStep (resolver : Resolver) (acc : Entries × Entries)
    (paper : Item) : Entries × Entries :=
  let clean_paper_id := stripVersion paper.raw_id
  let clean_arxiv_url := ARXIV_BASE_URL ++ str "abs/" ++ clean_paper_id
  let code_url := getCodeUrl resolver clean_paper_id
  let first_author := format_authors paper.authors true
  (dictSet acc.1 clean_paper_id
      (mkTableRow paper.update_date paper.title first_author clean_paper_id
        clean_arxiv_url code_url),
    dictSet acc.2 clean_paper_id
      (mkListItem paper.update_date paper.title first_author clean_arxiv_url
        code_url paper.comment))

/-- `fetch_daily_arxiv_papers` (lines 166-261), pure core: the search
result list is a parameter (the arXiv client is external; a search
failure propagates, per spec, and is outside this function). -/
def fetch_daily_arxiv_papers (resolver : Resolver) (topic : Chars)
    (papers : List Item) : Doc × Doc :=
  let data := papers.foldl (fetchItemStep resolver) ([], [])
  ([(topic, data.1)], [(topic, data.2)])

-- #### Link backfill (`update_paper_code_links`, lines 264-317)

/-- Python `s.split("|")` (single-character separator). -/
def splitOnL (sep : Char) : Chars → List Chars
  | [] => [[]]
  | c :: cs =>
      if c = sep then [] :: splitOnL sep cs
      else
        match splitOnL sep cs with
        | t :: ts => (c :: t) :: ts
        | [] => [[c]]

/-- Python `s.strip()`. -/
def pyStrip (s : Chars) : Chars :=
  ((s.dropWhile (fun c => pyIsSpace c)).reverse.dropWhile
    (fun c => pyIsSpace c)).reverse

/-- Lazy `.*?` up to a closing `]`: the shortest run of non-newline
characters ending at `]`; fails when a newline (which `.` cannot match)
comes first. -/
def grabUntilClose : Chars → Option Chars
  | [] => none
  | c :: rest =>
      if c = ']' then some []
      else if c = '\n' then none
      else (grabUntilClose rest).map (c :: ·)

/-- `re.findall(r'\[(.*?)\]', s)[0]` (line 280): the leftmost match of
a bracketed segment, `none` when there is no match (Python raises
`IndexError` on the `[0]`). -/
def extractBracket : Chars → Option Chars
  | [] => none
  | c :: rest =>
      if c = '[' then
        match grabUntilClose rest with
        | some content => some content
        | none => extractBracket rest
      else extractBracket rest

/-- Worker for `re.sub(r'v\d+', '', s)`: remove every non-overlapping
occurrence of `v` followed by one or more digits, scanning left to
right.  The fuel argument (an upper bound on the remaining length) only
discharges termination; it never changes the result. -/
def subVGo : Nat → Chars → Chars
  | _, [] => []
  | 0, s => s
  | fuel + 1, c :: cs =>
      if c = 'v' ∧ cs.takeWhile Char.isDigit ≠ [] then
        subVGo fuel (cs.dropWhile Char.isDigit)
      else c :: subVGo fuel cs

/-- `re.sub(r'v\d+', '', s)` (line 280). -/
def subVDigits (s : Chars) : Chars := subVGo s.length s

/-- Worker for Python `s.replace(pat, rep)`: replace every
non-overlapping occurrence of `pat`, scanning left to right; the
replacement text is not rescanned.  The fuel argument (an upper bound on
the remaining length) only discharges termination. -/
def replaceGo (pat rep : Chars) : Nat → Chars → Chars
  | _, [] => []
  | 0, s => s
  | fuel + 1, c :: cs =>
      if pat.isPrefixOf (c :: cs) ∧ pat ≠ [] then
        rep ++ replaceGo pat rep fuel (cs.drop (pat.length - 1))
      else c :: replaceGo pat rep fuel cs

/-- Python `s.replace(pat, rep)` for non-empty `pat` (line 308 uses
`markdown_row.replace("|null|", ...)`, which replaces EVERY occurrence
of `|null|` in the row, not only the code-link column). -/
def pyReplace (s pat rep : Chars) : Chars := replaceGo pat rep s.length s

/-- `parse_paper_info_from_markdown` (lines 272-282): split the row on
`|`, strip each part, read columns 1-5, extract the bracketed
identifier from column 4 and delete version markers from it.  `none`
models the uncaught `IndexError` when a column or the bracket is
missing. -/
def parse_paper_info_from_markdown (markdown_row : Chars) :
    Option (Chars × Chars × Chars × Chars × Chars) :=
  let parts := (splitOnL '|' markdown_row).map pyStrip
  match parts[1]?, parts[2]?, parts[3]?, parts[4]?, parts[5]? with
  | some update_date, some title, some authors, some idCell, some code_link =>
      (match extractBracket idCell with
       | some bracket =>
           some (update_date, title, authors, subVDigits bracket, code_link)
       | none => none)
  | _, _, _, _, _ => none

/-- Body of the per-entry loop of the backfill (lines 292-313).  Returns
the (possibly rewritten) row together with the list of identifiers sent
to the resolver (the `requests.get` on line 302 runs exactly when the
stored code-link column is the `null` sentinel); `none` models the
uncaught parse `IndexError`. -/
def backfillRow (resolver : Resolver) (markdown_row : Chars) :
    Option (Chars × List Chars) :=
  match parse_paper_info_from_markdown markdown_row with
  | none => none
  | some (_, _, _, clean_paper_id, old_code_link) =>
      if old_code_link = str "null" then
        match resolver clean_paper_id with
        | Except.error _ => some (markdown_row, [clean_paper_id])
        | Except.ok none => some (markdown_row, [clean_paper_id])
        | Except.ok (some url) =>
            some (pyReplace markdown_row (str "|null|")
                (str "|**[link](" ++ url ++ str ")**|"), [clean_paper_id])
      else some (markdown_row, [])

/-- The backfill over one topic's entries, threading the resolver-call
log; an uncaught parse error aborts the whole operation. -/
def backfillEntries (resolver : Resolver) : Entries → Option (Entries × List Chars)
  | [] => some ([], [])
  | (pid, row) :: rest =>
      match backfillRow resolver row with
      | none => none
      | some (row', q) =>
          match backfillEntries resolver rest with
          | none => none
          | some (rest', qs) => some ((pid, row') :: rest', q ++ qs)

/-- The backfill over all topics. -/
def backfillDoc (resolver : Resolver) : Doc → Option (Doc × List Chars)
  | [] => some ([], [])
  | (t, es) :: rest =>
      match backfillEntries resolver es with
      | none => none
      | some (es', q) =>
          match backfillDoc resolver rest with
          | none => none
          | some (rest', qs) => some ((t, es') :: rest', q ++ qs)

/-- `update_paper_code_links` (lines 264-317), pure core: the document
after the backfill (the load before and full rewrite after are modelled
by `readStoreFile`); `none` models an uncaught exception (no write). -/
def update_paper_code_links (resolver : Resolver) (paper_data : Doc) :
    Option Doc :=
  (backfillDoc resolver paper_data).map Prod.fst

-- #### Renderer (`convert_json_to_markdown`, lines 348-469)

/-- `topic.replace(" ", "-").lower()` (line 422). -/
def topicAnchor (topic : Chars) : Chars :=
  (topic.map (fun c => if c = ' ' then '-' else c)).map Char.toLower

/-- Python string `<` (lexicographic by code point). -/
def charsLtB : Chars → Chars → Bool
  | [], [] => false
  | [], _ :: _ => true
  | _ :: _, [] => false
  | a :: as, b :: bs => if a < b then true else if b < a then false else charsLtB as bs

/-- Insert a key into a descending-sorted key list. -/
def insertDesc (k : Chars) : List Chars → List Chars
  | [] => [k]
  | x :: xs => if charsLtB x k then k :: x :: xs else x :: insertDesc k xs

/-- `sorted(keys, reverse=True)` (line 129): descending sort. -/
def sortKeysDesc (keys : List Chars) : List Chars := keys.foldr insertDesc []

/-- `sort_papers_by_id_desc` (lines 120-130). -/
def sort_papers_by_id_desc (papers : Entries) : Entries :=
  (sortKeysDesc (papers.map Prod.fst)).filterMap
    (fun pid => (dictGet? papers pid).map (fun v => (pid, v)))

/-- Index of the last occurrence of a character. -/
def lastIdxOf (c : Char) (l : Chars) : Option Nat :=
  (l.reverse.findIdx? (· = c)).map (fun k => l.length - 1 - k)

/-- The span of `re.search(r"\$.*\$", text)` (line 368): the leftmost
match starts at the first `$` that has another `$` after it on the same
line (`.` does not match a newline), and the greedy `.*` stretches to
the LAST such `$`.  Returns (start, end-exclusive). -/
def findSpanAux : Nat → Chars → Option (Nat × Nat)
  | _, [] => none
  | i, c :: rest =>
      if c = '$' then
        match lastIdxOf '$' (rest.takeWhile (fun x => x ≠ '\n')) with
        | some k => some (i, i + k + 2)
        | none => findSpanAux (i + 1) rest
      else findSpanAux (i + 1) rest

/-- `format_latex_formula` (lines 365-388).  Note the source's own
naming: `trailing_space` is inserted BEFORE the formula and
`leading_space` after it, mirroring lines 373-381. -/
def format_latex_formula (text : Chars) : Chars :=
  match findSpanAux 0 text with
  | none => text
  | some (formula_start, formula_end) =>
      let formula := (text.drop (formula_start + 1)).take
        (formula_end - formula_start - 2)
      let trailing_space : Chars :=
        if 0 < formula_start ∧
            ¬(text.getD (formula_start - 1) ' ' = ' '
              ∨ text.getD (formula_start - 1) ' ' = '*') then [' '] else []
      let leading_space : Chars :=
        if formula_end < text.length ∧
            ¬(text.getD formula_end ' ' = ' '
              ∨ text.getD formula_end ' ' = '*') then [' '] else []
      text.take formula_start ++ trailing_space ++ '$' :: pyStrip formula
        ++ '$' :: leading_space ++ text.drop formula_end

/-- One table-of-contents line (line 423). -/
def tocEntryLine (topic : Chars) : Chars :=
  str "    <li><a href=#" ++ topicAnchor topic ++ str ">" ++ topic
    ++ str "</a></li>\n"

/-- The table-of-contents block (lines 419-424). -/
def tocBlock (paper_data : Doc) : Chars :=
  str "<details>\n  <summary>Table of Contents</summary>\n  <ol>\n"
    ++ (paper_data.map (fun te => tocEntryLine te.1)).flatten
    ++ str "  </ol>\n</details>\n\n"

/-- Table header, README variant (line 436). -/
def tableHeaderPlain : Chars :=
  str "|Publish Date|Title|Authors|PDF|Code|\n|---|---|---|---|---|\n"

/-- Table header, web variant (line 438). -/
def tableHeaderWeb : Chars :=
  str "| Publish Date | Title | Authors | PDF | Code |\n|:---------|:-----------------------|:---------|:------|:------|\n"

/-- The back-to-top link (lines 452-453); `current_date.replace('.', '')`
deletes every dot. -/
def backToTopBlock (current_date : Chars) : Chars :=
  str "<p align=right>(<a href=#updated-on-"
    ++ current_date.filter (fun c => c ≠ '.')
    ++ str ">back to top</a>)</p>\n\n"

/-- The badge reference block (lines 457-466). -/
def badgeBlock : Chars :=
  str "[contributors-shield]: https://img.shields.io/github/contributors/Vincentqyw/cv-arxiv-daily.svg?style=for-the-badge\n[contributors-url]: https://github.com/Vincentqyw/cv-arxiv-daily/graphs/contributors\n[forks-shield]: https://img.shields.io/github/forks/Vincentqyw/cv-arxiv-daily.svg?style=for-the-badge\n[forks-url]: https://github.com/Vincentqyw/cv-arxiv-daily/network/members\n[stars-shield]: https://img.shields.io/github/stars/Vincentqyw/cv-arxiv-daily.svg?style=for-the-badge\n[stars-url]: https://github.com/Vincentqyw/cv-arxiv-daily/stargazers\n[issues-shield]: https://img.shields.io/github/issues/Vincentqyw/cv-arxiv-daily.svg?style=for-the-badge\n[issues-url]: https://github.com/Vincentqyw/cv-arxiv-daily/issues\n\n"

/-- One topic's section (lines 427-453): a topic with an empty entry
mapping is skipped (`if not papers: continue`); rows are emitted in
descending identifier order, each through the LaTeX fix-up, empty rows
skipped (`if markdown_content:`). -/
def renderSection (use_title to_web use_back_to_top : Bool)
    (current_date : Chars) (te : Chars × Entries) : Chars :=
  if te.2.isEmpty then [] else
    str "## " ++ te.1 ++ str "\n\n"
    ++ (if use_title && !to_web then tableHeaderPlain
        else if use_title && to_web then tableHeaderWeb else [])
    ++ ((sort_papers_by_id_desc te.2).map
          (fun kv => if kv.2 = [] then [] else format_latex_formula kv.2)).flatten
    ++ str "\n"
    ++ (if use_back_to_top then backToTopBlock current_date else [])

/-- `convert_json_to_markdown` (lines 348-469), pure core: the full text
written to the Markdown file, given the loaded document and the current
date string (the file truncation and append writes concatenate). -/
def convert_json_to_markdown (to_web use_title use_toc show_badge
    use_back_to_top : Bool) (current_date : Chars) (paper_data : Doc) : Chars :=
  (if to_web && use_title then str "---\nlayout: default\n---\n\n" else [])
  ++ (if use_title then str "## Updated on " ++ current_date ++ str "\n"
      else str "> Updated on " ++ current_date ++ str "\n")
  ++ str "> Usage instructions: [here](./docs/README.md#usage)\n\n"
  ++ (if use_toc then tocBlock paper_data else [])
  ++ (paper_data.map
        (renderSection use_title to_web use_back_to_top current_date)).flatten
  ++ (if show_badge then badgeBlock else [])

/-- The shape of a table row as produced by the fetch: five cells
separated by `|`, opened and closed by `|`, terminated by a newline
(specification artifact for the backfill theorem). -/
def mkTableRowCells (c1 c2 c3 c4 c5 : Chars) : Chars :=
  '|' :: (c1 ++ '|' :: (c2 ++ '|' :: (c3 ++ '|' :: (c4 ++ '|' :: (c5 ++ '|' :: ['\n'])))))

/-- Specification artifact for the LaTeX fix-up theorem: the space the
fix-up inserts next to a delimiter, given the neighbouring character
(`none` when the delimiter sits at the edge of the line). -/
def spaceUnless : Option Char → Chars
  | none => []
  | some c => if c = ' ' ∨ c = '*' then [] else [' ']

-- #### Theorems

-- ## C5 / C9: identifier normalization

theorem pyFind_eq_none_iff (c : Char) (s : Chars) :
    pyFind c s = none ↔ c ∉ s := by
  induction s with
  | nil => simp [pyFind]
  | cons x xs ih =>
    by_cases hx : x = c
    · simp [pyFind, hx]
    · simp [pyFind, hx, Option.map_eq_none', ih]
      intro h
      exact fun hc => hx hc.symm

theorem pyFind_append_not_mem (c : Char) (pre post : Chars) (hpre : c ∉ pre) :
    pyFind c (pre ++ c :: post) = some pre.length := by
  induction pre with
  | nil => simp [pyFind]
  | cons x xs ih =>
    have hx : x ≠ c := by intro h; exact hpre (h ▸ List.mem_cons_self x xs)
    have hxs : c ∉ xs := fun h => hpre (List.mem_cons_of_mem x h)
    simp [pyFind, hx, ih hxs]

/-- C5 (amended): the fetch derives the normalized identifier by
truncating at the first occurrence of `v` (dropping it and everything
after) when one is present, and returns the identifier unchanged when it
contains no `v`.  When the first `v` begins a trailing `v`+digits
version suffix, this coincides with stripping that suffix. -/
theorem stripVersion_spec (s : Chars) :
    ('v' ∉ s → stripVersion s = s) ∧
    (∀ pre post, s = pre ++ 'v' :: post → 'v' ∉ pre → stripVersion s = pre) := by
  constructor
  · intro h
    unfold stripVersion
    rw [(pyFind_eq_none_iff 'v' s).2 h]
  · intro pre post hs hpre
    subst hs
    unfold stripVersion
    rw [pyFind_append_not_mem 'v' pre post hpre]
    simp [List.take_append]

/-- Witness for C5: `2108.09112v2` (first `v` starts the trailing
version suffix) is normalized to `2108.09112`. -/
theorem stripVersion_spec_witness :
    str "2108.09112v2" = str "2108.09112" ++ 'v' :: str "2" ∧
    'v' ∉ str "2108.09112" ∧
    stripVersion (str "2108.09112v2") = str "2108.09112" :=
  ⟨by decide, by decide,
    (stripVersion_spec (str "2108.09112v2")).2 (str "2108.09112") (str "2")
      (by decide) (by decide)⟩

/-- Counterexample for C5 as stated: on the (old-style) raw identifier
`solv-int/9812015v1` the code truncates at the `v` of `solv`, yielding
`sol`, whereas removing the trailing version suffix `v1` would yield
`solv-int/9812015`. -/
theorem stripVersion_counterexample :
    stripVersion (str "solv-int/9812015v1") = str "sol" ∧
    str "sol" ≠ str "solv-int/9812015" := by
  constructor <;> decide

/-- C9: the version-stripping step of the fetch is idempotent, and the
spec's two examples evaluate as stated. -/
theorem stripVersion_idempotent :
    (∀ s : Chars, stripVersion (stripVersion s) = stripVersion s) ∧
    stripVersion (str "2108.09112v2") = str "2108.09112" ∧
    stripVersion (str "2108.09112") = str "2108.09112" := by
  refine ⟨fun s => ?_, by decide, by decide⟩
  unfold stripVersion
  cases h : pyFind 'v' s with
  | none => rw [h]
  | some i =>
    have hv : 'v' ∉ s.take i := by
      intro hmem
      induction s generalizing i with
      | nil => simp at hmem
      | cons x xs ih =>
        by_cases hx : x = 'v'
        · simp [pyFind, hx] at h
          subst h
          simp at hmem
        · simp [pyFind, hx] at h
          obtain ⟨j, hj, hij⟩ := h
          subst hij
          simp [List.take_cons] at hmem
          rcases hmem with hmem | hmem
          · exact hx hmem.symm
          · exact ih j hj hmem
    rw [(pyFind_eq_none_iff 'v' (s.take i)).2 hv]

-- ## C6: keyword formatter

/-- Counterexample for C6 as stated: the claim requires both phrases of
`["SLAM", "3D reconstruction"]` to be quoted, but the code leaves the
single-word phrase `SLAM` bare. -/
theorem parse_filter_keywords_counterexample :
    parse_filter_keywords [str "SLAM", str "3D reconstruction"]
      = str "SLAM OR \"3D reconstruction\"" ∧
    str "SLAM OR \"3D reconstruction\""
      ≠ str "\"SLAM\" OR \"3D reconstruction\"" := by
  constructor <;> decide

/-- C6 (amended): the output joins the phrases with `" OR "`; a phrase
splitting into two or more whitespace-delimited tokens is wrapped in
exactly one pair of double quotes, a phrase of at most one token is
emitted bare; a single-phrase list produces no `OR`; an empty list
yields the empty string; `["SLAM", "3D reconstruction"]` yields
`SLAM OR "3D reconstruction"` (only the multi-word phrase quoted). -/
theorem parse_filter_keywords_spec :
    parse_filter_keywords [] = [] ∧
    (∀ w, parse_filter_keywords [w] = formatKeywordTerm w) ∧
    (∀ w ws, ws ≠ [] →
      parse_filter_keywords (w :: ws)
        = formatKeywordTerm w ++ str " OR " ++ parse_filter_keywords ws) ∧
    (∀ w, (pySplitWs w).length ≤ 1 → formatKeywordTerm w = w) ∧
    (∀ w, 1 < (pySplitWs w).length → formatKeywordTerm w = '"' :: w ++ ['"']) ∧
    parse_filter_keywords [str "SLAM", str "3D reconstruction"]
      = str "SLAM OR \"3D reconstruction\"" := by
  refine ⟨rfl, fun w => rfl, fun w ws hws => ?_, fun w hw => ?_, fun w hw => ?_, by decide⟩
  · cases ws with
    | nil => exact absurd rfl hws
    | cons y ys => rfl
  · unfold formatKeywordTerm
    rw [if_neg (by omega)]
  · unfold formatKeywordTerm
    rw [if_pos hw]

/-- Witness for C6: instantiating the join clause on a two-phrase list. -/
theorem parse_filter_keywords_spec_witness :
    (str "3D reconstruction" :: [] ≠ ([] : List Chars)) ∧
    parse_filter_keywords [str "SLAM", str "3D reconstruction"]
      = formatKeywordTerm (str "SLAM") ++ str " OR "
        ++ parse_filter_keywords [str "3D reconstruction"] :=
  ⟨by decide,
    parse_filter_keywords_spec.2.2.1 (str "SLAM") [str "3D reconstruction"]
      (by decide)⟩

-- ## C3: store load

/-- Counterexample for C3 as stated: an absent backing file does not
yield the empty document — `open(path, "r")` raises `FileNotFoundError`
(modelled: the file is `none` and the load is an error). -/
theorem readStoreFile_counterexample :
    readStoreFile none (fun _ => Except.ok []) = Except.error () := by
  rfl

/-- C3 (amended): whenever a Record Store document is read (the merge,
the backfill and the renderer all use the identical load pattern), a
backing file that is present but empty yields the empty document and
never an error; an absent backing file raises a file-not-found error. -/
theorem readStoreFile_spec :
    (∀ parse, readStoreFile (some "") parse = Except.ok []) ∧
    (∀ parse, readStoreFile none parse = Except.error ()) := by
  exact ⟨fun parse => rfl, fun parse => rfl⟩

-- ## C1: merge

theorem dictGet?_dictSet_self (d : List (Chars × α)) (k : Chars) (v : α) :
    dictGet? (dictSet d k v) k = some v := by
  induction d with
  | nil => simp [dictSet, dictGet?]
  | cons kv rest ih =>
    obtain ⟨k', v'⟩ := kv
    by_cases h : k' = k
    · simp [dictSet, dictGet?, h]
    · simp [dictSet, dictGet?, h, ih]

theorem dictGet?_dictSet_ne (d : List (Chars × α)) (k k' : Chars) (v : α)
    (h : k' ≠ k) : dictGet? (dictSet d k v) k' = dictGet? d k' := by
  induction d with
  | nil => simp [dictSet, dictGet?, Ne.symm h]
  | cons kv rest ih =>
    obtain ⟨k₀, v₀⟩ := kv
    by_cases h₀ : k₀ = k
    · subst h₀
      simp [dictSet, dictGet?, Ne.symm h, h]
    · simp [dictSet, dictGet?, h₀, ih]

theorem dictGet?_dictUpdate (new : List (Chars × α)) :
    ∀ (d : List (Chars × α)) (k : Chars),
      dictGet? (dictUpdate d new) k = (lastGet? new k).or (dictGet? d k) := by
  induction new with
  | nil => intro d k; simp [dictUpdate, lastGet?]
  | cons kv rest ih =>
    intro d k
    obtain ⟨k₀, v₀⟩ := kv
    show dictGet? (dictUpdate (dictSet d k₀ v₀) rest) k = _
    rw [ih (dictSet d k₀ v₀) k]
    cases hr : lastGet? rest k with
    | some w => simp [lastGet?, hr]
    | none =>
      by_cases h : k₀ = k
      · subst h
        simp [lastGet?, hr, dictGet?_dictSet_self]
      · simp [lastGet?, hr, h, dictGet?_dictSet_ne d k₀ k v₀ (Ne.symm h)]

theorem lastGet?_eq_none_of_not_mem (l : List (Chars × α)) (k : Chars)
    (h : k ∉ l.map Prod.fst) : lastGet? l k = none := by
  induction l with
  | nil => rfl
  | cons kv rest ih =>
    obtain ⟨k₀, v₀⟩ := kv
    simp only [List.map_cons, List.mem_cons] at h
    push_neg at h
    show (match lastGet? rest k with
      | some w => some w
      | none => if k₀ = k then some v₀ else none) = none
    rw [ih h.2]
    simp [Ne.symm h.1]

theorem dictGet?_eq_lastGet?_of_nodup (l : List (Chars × α)) (k : Chars)
    (h : (l.map Prod.fst).Nodup) : dictGet? l k = lastGet? l k := by
  induction l with
  | nil => rfl
  | cons kv rest ih =>
    obtain ⟨k₀, v₀⟩ := kv
    simp only [List.map_cons, List.nodup_cons] at h
    show (if k₀ = k then some v₀ else dictGet? rest k)
      = (match lastGet? rest k with
        | some w => some w
        | none => if k₀ = k then some v₀ else none)
    by_cases hk : k₀ = k
    · subst hk
      rw [lastGet?_eq_none_of_not_mem rest k₀ h.1]
      simp
    · rw [ih h.2]
      cases lastGet? rest k <;> simp [hk]

theorem dictGet?_append (d d' : List (Chars × α)) (k : Chars) :
    dictGet? (d ++ d') k = (dictGet? d k).or (dictGet? d' k) := by
  induction d with
  | nil => simp [dictGet?]
  | cons kv rest ih =>
    obtain ⟨k₀, v₀⟩ := kv
    by_cases h : k₀ = k
    · simp [dictGet?, h]
    · simp [dictGet?, h, ih]

theorem dictGet?_mergeTopic_ne (d : Doc) (t' t : Chars) (es : Entries)
    (h : t' ≠ t) : dictGet? (mergeTopic d t' es) t = dictGet? d t := by
  unfold mergeTopic
  cases dictGet? d t' with
  | some old => exact dictGet?_dictSet_ne d t' t _ (Ne.symm h)
  | none =>
    rw [dictGet?_append]
    simp [dictGet?, h]

theorem storeGet?_mergeTopic (d : Doc) (t' t id : Chars) (es : Entries)
    (hes : (es.map Prod.fst).Nodup) :
    storeGet? (mergeTopic d t' es) t id
      = if t' = t then (lastGet? es id).or (storeGet? d t id)
        else storeGet? d t id := by
  by_cases h : t' = t
  · subst h
    rw [if_pos rfl]
    unfold mergeTopic
    cases hd : dictGet? d t' with
    | some old =>
      unfold storeGet?
      rw [dictGet?_dictSet_self, hd]
      show dictGet? (dictUpdate old es) id = (lastGet? es id).or (dictGet? old id)
      rw [dictGet?_dictUpdate es old id]
    | none =>
      unfold storeGet?
      rw [dictGet?_append, hd]
      simp [dictGet?, dictGet?_eq_lastGet?_of_nodup es id hes]
  · simp only [h, if_false]
    unfold storeGet?
    rw [dictGet?_mergeTopic_ne d t' t es h]

theorem storeGet?_foldl_mergeTopic (flat : List (Chars × Entries)) :
    ∀ (existing : Doc) (t id : Chars),
      (∀ te ∈ flat, ((te.2 : Entries).map Prod.fst).Nodup) →
      storeGet? (flat.foldl (fun a te => mergeTopic a te.1 te.2) existing) t id
        = (flatLast? flat t id).or (storeGet? existing t id) := by
  induction flat with
  | nil => intro existing t id _; simp [flatLast?]
  | cons te rest ih =>
    intro existing t id hb
    obtain ⟨t', es⟩ := te
    have hes : (es.map Prod.fst).Nodup := hb (t', es) (List.mem_cons_self _ _)
    have hrest : ∀ te ∈ rest, ((te.2 : Entries).map Prod.fst).Nodup :=
      fun te hte => hb te (List.mem_cons_of_mem _ hte)
    show storeGet? (rest.foldl _ (mergeTopic existing t' es)) t id = _
    rw [ih (mergeTopic existing t' es) t id hrest,
      storeGet?_mergeTopic existing t' t id es hes]
    show _ = (match flatLast? rest t id with
      | some w => some w
      | none => if t' = t then lastGet? es id else none).or _
    cases hr : flatLast? rest t id with
    | some w => simp
    | none =>
      by_cases h : t' = t <;> simp [h, Option.or_assoc]

theorem dictGet?_foldl_mergeTopic_not_mem (flat : List (Chars × Entries)) :
    ∀ (existing : Doc) (t : Chars), (∀ te ∈ flat, te.1 ≠ t) →
      dictGet? (flat.foldl (fun a te => mergeTopic a te.1 te.2) existing) t
        = dictGet? existing t := by
  induction flat with
  | nil => intro existing t _; rfl
  | cons te rest ih =>
    intro existing t hb
    obtain ⟨t', es⟩ := te
    show dictGet? (rest.foldl _ (mergeTopic existing t' es)) t = _
    rw [ih (mergeTopic existing t' es) t
      (fun te hte => hb te (List.mem_cons_of_mem _ hte)),
      dictGet?_mergeTopic_ne existing t' t es (hb (t', es) (List.mem_cons_self _ _))]

theorem update_papers_json_file_eq_foldl_flatten (existing : Doc)
    (batch : List Doc) :
    update_papers_json_file existing batch
      = batch.flatten.foldl (fun a te => mergeTopic a te.1 te.2) existing := by
  rw [update_papers_json_file, List.foldl_flatten]

/-- C1: after the merge, looking up any identifier of any topic returns
the last value the fetched batch writes for it when there is one, and
the previously stored value otherwise — so every identifier previously
stored remains present unless superseded, an identifier present in the
batch gets exactly the (last) new rendered text, a topic not in the
batch keeps its entry list byte-identical, and no entry is deleted. -/
theorem update_papers_json_file_merge_spec (existing : Doc) (batch : List Doc)
    (hb : ∀ d ∈ batch, ∀ te ∈ d, ((te.2 : Entries).map Prod.fst).Nodup) :
    (∀ t id, storeGet? (update_papers_json_file existing batch) t id
        = (flatLast? batch.flatten t id).or (storeGet? existing t id)) ∧
    (∀ t, (∀ te ∈ batch.flatten, te.1 ≠ t) →
      dictGet? (update_papers_json_file existing batch) t = dictGet? existing t) ∧
    (∀ t id v, storeGet? existing t id = some v →
      ∃ v', storeGet? (update_papers_json_file existing batch) t id = some v') := by
  have hflat : ∀ te ∈ batch.flatten, ((te.2 : Entries).map Prod.fst).Nodup := by
    intro te hte
    rw [List.mem_flatten] at hte
    obtain ⟨d, hd, hted⟩ := hte
    exact hb d hd te hted
  refine ⟨fun t id => ?_, fun t ht => ?_, fun t id v hv => ?_⟩
  · rw [update_papers_json_file_eq_foldl_flatten,
      storeGet?_foldl_mergeTopic batch.flatten existing t id hflat]
  · rw [update_papers_json_file_eq_foldl_flatten,
      dictGet?_foldl_mergeTopic_not_mem batch.flatten existing t ht]
  · rw [update_papers_json_file_eq_foldl_flatten,
      storeGet?_foldl_mergeTopic batch.flatten existing t id hflat, hv]
    cases flatLast? batch.flatten t id with
    | some w => exact ⟨w, rfl⟩
    | none => exact ⟨v, rfl⟩

/-- Witness for C1: a store with topics `A` and `B`; the batch rewrites
`A`'s identifier `1`.  Identifier `1` gets the new text, identifier `2`
keeps its old text, and topic `B` is byte-identical. -/
theorem update_papers_json_file_merge_spec_witness :
    storeGet?
      (update_papers_json_file
        [(str "A", [(str "1", str "old1"), (str "2", str "old2")]),
         (str "B", [(str "3", str "b3")])]
        [[(str "A", [(str "1", str "new1")])]])
      (str "A") (str "1") = some (str "new1") ∧
    storeGet?
      (update_papers_json_file
        [(str "A", [(str "1", str "old1"), (str "2", str "old2")]),
         (str "B", [(str "3", str "b3")])]
        [[(str "A", [(str "1", str "new1")])]])
      (str "A") (str "2") = some (str "old2") ∧
    dictGet?
      (update_papers_json_file
        [(str "A", [(str "1", str "old1"), (str "2", str "old2")]),
         (str "B", [(str "3", str "b3")])]
        [[(str "A", [(str "1", str "new1")])]])
      (str "B") = some [(str "3", str "b3")] := by
  have h := update_papers_json_file_merge_spec
    [(str "A", [(str "1", str "old1"), (str "2", str "old2")]),
     (str "B", [(str "3", str "b3")])]
    [[(str "A", [(str "1", str "new1")])]]
    (by decide)
  refine ⟨?_, ?_, ?_⟩
  · rw [h.1 (str "A") (str "1")]; decide
  · rw [h.1 (str "A") (str "2")]; decide
  · rw [h.2.1 (str "B") (by decide)]; decide

-- ## C4: resolver-failure containment

theorem fetchItemStep_suppressErrors (r : Resolver) :
    fetchItemStep (suppressErrors r) = fetchItemStep r := by
  funext acc p
  rfl

theorem backfillRow_suppressErrors (r : Resolver) (row : Chars) :
    backfillRow (suppressErrors r) row = backfillRow r row := by
  unfold backfillRow
  cases parse_paper_info_from_markdown row with
  | none => rfl
  | some info =>
    obtain ⟨d, t, a, pid, code⟩ := info
    by_cases h : code = str "null"
    · cases hr : r pid with
      | error e => cases e; simp [h, suppressErrors, getCodeUrl, hr]
      | ok v => cases v <;> simp [h, suppressErrors, getCodeUrl, hr]
    · simp [h]

theorem backfillEntries_suppressErrors (r : Resolver) (es : Entries) :
    backfillEntries (suppressErrors r) es = backfillEntries r es := by
  induction es with
  | nil => rfl
  | cons kv rest ih =>
    obtain ⟨pid, row⟩ := kv
    show (match backfillRow (suppressErrors r) row with
      | none => none
      | some (row', q) =>
          match backfillEntries (suppressErrors r) rest with
          | none => none
          | some (rest', qs) => some ((pid, row') :: rest', q ++ qs)) = _
    rw [backfillRow_suppressErrors r row, ih]
    rfl

theorem backfillDoc_suppressErrors (r : Resolver) (doc : Doc) :
    backfillDoc (suppressErrors r) doc = backfillDoc r doc := by
  induction doc with
  | nil => rfl
  | cons te rest ih =>
    obtain ⟨t, es⟩ := te
    show (match backfillEntries (suppressErrors r) es with
      | none => none
      | some (es', q) =>
          match backfillDoc (suppressErrors r) rest with
          | none => none
          | some (rest', qs) => some ((t, es') :: rest', q ++ qs)) = _
    rw [backfillEntries_suppressErrors r es, ih]
    rfl

/-- C4: both the fetch and the backfill behave exactly as if every
resolver exception had been the answer "no code link": replacing the
resolver by its error-suppressed version (which, by the third conjunct,
never raises) changes neither output.  Both functions are total over
the resolver, so a resolver error never escapes the per-item `try` and
processing of the remaining items, entries and topics continues. -/
theorem resolver_failure_contained (r : Resolver) :
    (∀ topic papers, fetch_daily_arxiv_papers r topic papers
        = fetch_daily_arxiv_papers (suppressErrors r) topic papers) ∧
    (∀ doc, update_paper_code_links r doc
        = update_paper_code_links (suppressErrors r) doc) ∧
    (∀ id, suppressErrors r id = Except.ok (getCodeUrl r id)) := by
  refine ⟨fun topic papers => ?_, fun doc => ?_, fun id => rfl⟩
  · unfold fetch_daily_arxiv_papers
    rw [fetchItemStep_suppressErrors r]
  · unfold update_paper_code_links
    rw [backfillDoc_suppressErrors r doc]

-- ## C7: renderer topic-skip

theorem renderSection_flatten_filter (ut tw bt : Bool) (date : Chars)
    (doc : Doc) :
    (doc.map (renderSection ut tw bt date)).flatten
      = ((doc.filter (fun te => !te.2.isEmpty)).map
          (renderSection ut tw bt date)).flatten := by
  induction doc with
  | nil => rfl
  | cons te rest ih =>
    obtain ⟨t, es⟩ := te
    by_cases he : es.isEmpty
    · have h1 : renderSection ut tw bt date (t, es) = [] := by
        unfold renderSection
        rw [if_pos he]
      simp [List.filter_cons, he, h1, ih]
    · simp [List.filter_cons, he, ih]

/-- C7: a topic with an empty entry mapping contributes nothing to the
per-topic sections of the rendered output — the sections are those of
the document with all empty topics removed (first conjunct, for every
option combination), and when the table of contents is disabled (the
only block that, per the spec, lists every topic key of the document)
the entire rendered output equals that of the document with the empty
topics removed: no heading and no entry of such a topic appears. -/
theorem convert_json_to_markdown_topic_skip (to_web use_title show_badge
    use_back_to_top : Bool) (current_date : Chars) (paper_data : Doc) :
    ((paper_data.map
        (renderSection use_title to_web use_back_to_top current_date)).flatten
      = ((paper_data.filter (fun te => !te.2.isEmpty)).map
          (renderSection use_title to_web use_back_to_top current_date)).flatten) ∧
    (convert_json_to_markdown to_web use_title false show_badge use_back_to_top
        current_date paper_data
      = convert_json_to_markdown to_web use_title false show_badge
          use_back_to_top current_date
          (paper_data.filter (fun te => !te.2.isEmpty))) := by
  constructor
  · exact renderSection_flatten_filter use_title to_web use_back_to_top
      current_date paper_data
  · unfold convert_json_to_markdown
    rw [renderSection_flatten_filter use_title to_web use_back_to_top
      current_date paper_data]
    simp

-- ## C10: empty-topic persistence

theorem dictGet?_eq_none_of_forall_ne (d : List (Chars × α)) (k : Chars)
    (h : ∀ kv ∈ d, kv.1 ≠ k) : dictGet? d k = none := by
  induction d with
  | nil => rfl
  | cons kv rest ih =>
    obtain ⟨k₀, v₀⟩ := kv
    have hk : k₀ ≠ k := h (k₀, v₀) (List.mem_cons_self _ _)
    show (if k₀ = k then some v₀ else dictGet? rest k) = none
    rw [if_neg hk, ih (fun kv hkv => h kv (List.mem_cons_of_mem _ hkv))]

theorem dictGet?_foldl_mergeTopic_isSome (flat : List (Chars × Entries)) :
    ∀ (d : Doc) (t : Chars) (es : Entries), dictGet? d t = some es →
      ∃ es', dictGet? (flat.foldl (fun a te => mergeTopic a te.1 te.2) d) t
        = some es' := by
  induction flat with
  | nil => intro d t es h; exact ⟨es, h⟩
  | cons te rest ih =>
    intro d t es h
    obtain ⟨t', es₀⟩ := te
    show ∃ es', dictGet? (rest.foldl _ (mergeTopic d t' es₀)) t = some es'
    by_cases ht : t' = t
    · subst ht
      unfold mergeTopic
      rw [h]
      exact ih (dictSet d t' (dictUpdate es es₀)) t' _
        (dictGet?_dictSet_self d t' (dictUpdate es es₀))
    · refine ih (mergeTopic d t' es₀) t es ?_
      rw [dictGet?_mergeTopic_ne d t' t es₀ ht]
      exact h

/-- C10: a fetch returning zero items still yields the topic mapped to
an empty mapping; merging it into a store that lacks the topic appends
the topic with an empty entry mapping; a topic present in the store
stays present through any later merge; and with the table of contents
enabled the rendered output still contains the TOC line of the (empty)
topic. -/
theorem empty_topic_persistence (r : Resolver) (topic : Chars) :
    (fetch_daily_arxiv_papers r topic [] = ([(topic, [])], [(topic, [])])) ∧
    (∀ existing : Doc, (∀ te ∈ existing, te.1 ≠ topic) →
      update_papers_json_file existing [[(topic, [])]]
        = existing ++ [(topic, [])]) ∧
    (∀ (d : Doc) (batch : List Doc) (es : Entries),
      dictGet? d topic = some es →
      ∃ es', dictGet? (update_papers_json_file d batch) topic = some es') ∧
    (∀ (tw ut sb bt : Bool) (date : Chars) (pre post : Doc),
      ∃ l rmd, convert_json_to_markdown tw ut true sb bt date
          (pre ++ (topic, []) :: post)
        = l ++ tocEntryLine topic ++ rmd) := by
  refine ⟨rfl, fun existing hne => ?_, fun d batch es h => ?_,
    fun tw ut sb bt date pre post => ?_⟩
  · show mergeTopic existing topic [] = existing ++ [(topic, [])]
    unfold mergeTopic
    rw [dictGet?_eq_none_of_forall_ne existing topic hne]
  · rw [update_papers_json_file_eq_foldl_flatten]
    exact dictGet?_foldl_mergeTopic_isSome batch.flatten d topic es h
  · refine ⟨(if tw && ut then str "---\nlayout: default\n---\n\n" else [])
        ++ (if ut then str "## Updated on " ++ date ++ str "\n"
            else str "> Updated on " ++ date ++ str "\n")
        ++ str "> Usage instructions: [here](./docs/README.md#usage)\n\n"
        ++ str "<details>\n  <summary>Table of Contents</summary>\n  <ol>\n"
        ++ (pre.map (fun te => tocEntryLine te.1)).flatten,
      (post.map (fun te => tocEntryLine te.1)).flatten
        ++ str "  </ol>\n</details>\n\n"
        ++ ((pre ++ (topic, []) :: post).map
            (renderSection ut tw bt date)).flatten
        ++ (if sb then badgeBlock else []), ?_⟩
    simp [convert_json_to_markdown, tocBlock, List.map_append,
      List.flatten_append, List.append_assoc]

/-- Witness for C10: merging an empty-mapping topic `SLAM` into a store
that lacks it appends it; the TOC line instance is exhibited on a
one-topic document. -/
theorem empty_topic_persistence_witness :
    update_papers_json_file [(str "A", [(str "1", str "r1")])]
        [[(str "SLAM", [])]]
      = [(str "A", [(str "1", str "r1")]), (str "SLAM", [])] := by
  have h := (empty_topic_persistence
    (fun _ => Except.ok none) (str "SLAM")).2.1
    [(str "A", [(str "1", str "r1")])] (by decide)
  exact h

-- ## C8: LaTeX fix-up

theorem findIdx?_eq_none_of_all (p : α → Bool) (xs : List α) (i : Nat)
    (h : ∀ x ∈ xs, p x = false) : xs.findIdx? p i = none := by
  induction xs generalizing i with
  | nil => rfl
  | cons x xs' ih =>
    rw [List.findIdx?_cons, if_neg (by simp [h x (List.mem_cons_self _ _)])]
    exact ih (i + 1) (fun a ha => h a (List.mem_cons_of_mem _ ha))

theorem findIdx?_append_first (p : α → Bool) (xs : List α) (y : α)
    (ys : List α) (i : Nat) (hxs : ∀ x ∈ xs, p x = false) (hy : p y = true) :
    (xs ++ y :: ys).findIdx? p i = some (i + xs.length) := by
  induction xs generalizing i with
  | nil => simp [List.findIdx?_cons, hy]
  | cons x xs' ih =>
    rw [List.cons_append, List.findIdx?_cons,
      if_neg (by simp [hxs x (List.mem_cons_self _ _)]),
      ih (i + 1) (fun a ha => hxs a (List.mem_cons_of_mem _ ha))]
    congr 1
    simp only [List.length_cons]
    omega

theorem lastIdxOf_append_last (m rts : Chars) (hr : '$' ∉ rts) :
    lastIdxOf '$' (m ++ '$' :: rts) = some m.length := by
  unfold lastIdxOf
  rw [show (m ++ '$' :: rts).reverse = rts.reverse ++ '$' :: m.reverse by simp]
  rw [findIdx?_append_first _ _ _ _ 0
    (fun x hx =>
      decide_eq_false (fun (he : x = '$') => hr (he ▸ List.mem_reverse.mp hx)))
    (by simp)]
  simp only [Option.map_some', List.length_reverse, List.length_append,
    List.length_cons]
  congr 1
  omega

theorem lastIdxOf_none (c : Char) (l : Chars) (h : c ∉ l) :
    lastIdxOf c l = none := by
  unfold lastIdxOf
  rw [findIdx?_eq_none_of_all _ _ 0
    (fun x hx =>
      decide_eq_false (fun (he : x = c) => h (he ▸ List.mem_reverse.mp hx)))]
  rfl

theorem takeWhile_append_all (p : Char → Bool) (m y : Chars)
    (hm : ∀ x ∈ m, p x = true) : (m ++ y).takeWhile p = m ++ y.takeWhile p := by
  induction m with
  | nil => rfl
  | cons x m' ih =>
    rw [List.cons_append, List.takeWhile_cons,
      if_pos (hm x (List.mem_cons_self _ _)),
      ih (fun a ha => hm a (List.mem_cons_of_mem _ ha)), List.cons_append]

theorem findSpanAux_skip (l : Chars) (hl : '$' ∉ l) :
    ∀ (i : Nat) (rest : Chars),
      findSpanAux i (l ++ rest) = findSpanAux (i + l.length) rest := by
  induction l with
  | nil => intro i rest; simp
  | cons c l' ih =>
    intro i rest
    have hc : ¬(c = '$') := fun h => hl (h ▸ List.mem_cons_self _ _)
    show findSpanAux i (c :: (l' ++ rest)) = _
    simp only [findSpanAux]
    rw [if_neg hc, ih (fun h => hl (List.mem_cons_of_mem _ h)) (i + 1) rest]
    congr 1
    simp only [List.length_cons]
    omega

theorem findSpanAux_here (i : Nat) (m r : Chars) (hm : '\n' ∉ m)
    (hr : '$' ∉ r) :
    findSpanAux i ('$' :: (m ++ '$' :: r)) = some (i, i + m.length + 2) := by
  have hseg : (m ++ '$' :: r).takeWhile (fun x => decide (x ≠ '\n'))
      = m ++ '$' :: r.takeWhile (fun x => decide (x ≠ '\n')) := by
    rw [takeWhile_append_all (fun x => decide (x ≠ '\n')) m ('$' :: r)
      (fun x hx => decide_eq_true (fun (he : x = '\n') => hm (he ▸ hx)))]
    rw [List.takeWhile_cons, if_pos (by decide)]
  have hrts : '$' ∉ r.takeWhile (fun x => decide (x ≠ '\n')) :=
    fun hx => hr ((List.takeWhile_sublist _).subset hx)
  simp only [findSpanAux, if_true]
  rw [hseg, lastIdxOf_append_last m _ hrts]

theorem findSpanAux_none (t : Chars) :
    ∀ i, t.count '$' ≤ 1 → findSpanAux i t = none := by
  induction t with
  | nil => intro i _; rfl
  | cons c rest ih =>
    intro i h
    by_cases hc : c = '$'
    · subst hc
      have hcc := List.count_cons '$' '$' rest
      simp only [beq_self_eq_true, if_true] at hcc
      have hz : rest.count '$' = 0 := by omega
      have hnot : '$' ∉ rest := List.count_eq_zero.mp hz
      simp only [findSpanAux, if_true]
      rw [lastIdxOf_none _ _
        (fun hx => hnot ((List.takeWhile_sublist _).subset hx))]
      exact ih (i + 1) (by omega)
    · have hcc := List.count_cons '$' c rest
      have hb : (c == '$') = false := beq_eq_false_iff_ne.mpr hc
      simp only [hb, if_false] at hcc
      simp only [findSpanAux]
      rw [if_neg hc]
      exact ih (i + 1) (by omega)

theorem getD_append_len (xs rest : Chars) (d : Char) :
    (xs ++ rest).getD xs.length d = rest.getD 0 d := by
  induction xs with
  | nil => rfl
  | cons x xs' ih => simpa using ih

theorem format_latex_formula_eq_of_span (text : Chars) (a b : Nat)
    (h : findSpanAux 0 text = some (a, b)) :
    format_latex_formula text
      = text.take a
        ++ (if 0 < a ∧ ¬(text.getD (a - 1) ' ' = ' ' ∨ text.getD (a - 1) ' ' = '*')
            then [' '] else [])
        ++ '$' :: pyStrip ((text.drop (a + 1)).take (b - a - 2))
        ++ '$' :: (if b < text.length ∧ ¬(text.getD b ' ' = ' ' ∨ text.getD b ' ' = '*')
            then [' '] else [])
        ++ text.drop b := by
  unfold format_latex_formula
  rw [h]

/-- C8 (amended): the fix-up treats the substring spanned by the greedy
`\$.*\$` match — from the first `$` having another `$` after it on the
same line, through the LAST such `$` (here: text decomposed as
`l ++ $ :: (m ++ $ :: r)` with no `$` in `l` or `r` and no newline in
`m`); the content between the delimiters is stripped and one space is
inserted on each side exactly when the neighbouring character exists
and is not already a space or asterisk; a line with fewer than two `$`
characters is emitted unchanged. -/
theorem format_latex_formula_spec (l m r : Chars)
    (hl : '$' ∉ l) (hr : '$' ∉ r) (hm : '\n' ∉ m) :
    (format_latex_formula (l ++ '$' :: (m ++ '$' :: r))
      = l ++ spaceUnless l.getLast? ++ '$' :: pyStrip m
          ++ '$' :: spaceUnless r.head? ++ r) ∧
    (∀ t : Chars, t.count '$' ≤ 1 → format_latex_formula t = t) := by
  constructor
  · have hspan : findSpanAux 0 (l ++ '$' :: (m ++ '$' :: r))
        = some (l.length, l.length + m.length + 2) := by
      rw [findSpanAux_skip l hl 0 ('$' :: (m ++ '$' :: r)), Nat.zero_add]
      exact findSpanAux_here l.length m r hm hr
    rw [format_latex_formula_eq_of_span _ _ _ hspan]
    have htake : (l ++ '$' :: (m ++ '$' :: r)).take l.length = l :=
      List.take_left' rfl
    have hdrop1 : (l ++ '$' :: (m ++ '$' :: r)).drop (l.length + 1)
        = m ++ '$' :: r := by
      rw [show l ++ '$' :: (m ++ '$' :: r) = (l ++ ['$']) ++ (m ++ '$' :: r) by
        simp]
      exact List.drop_left' (by simp)
    have hformula : ((l ++ '$' :: (m ++ '$' :: r)).drop (l.length + 1)).take
        (l.length + m.length + 2 - l.length - 2) = m := by
      rw [hdrop1, show l.length + m.length + 2 - l.length - 2 = m.length by omega]
      exact List.take_left' rfl
    have hdropEnd : (l ++ '$' :: (m ++ '$' :: r)).drop
        (l.length + m.length + 2) = r := by
      rw [show l ++ '$' :: (m ++ '$' :: r) = (l ++ '$' :: (m ++ ['$'])) ++ r by
        simp]
      refine List.drop_left' ?_
      simp only [List.length_append, List.length_cons, List.length_nil]
      omega
    have hlenText : (l ++ '$' :: (m ++ '$' :: r)).length
        = l.length + m.length + 2 + r.length := by
      simp only [List.length_append, List.length_cons]
      omega
    have hpre : (if 0 < l.length ∧
          ¬((l ++ '$' :: (m ++ '$' :: r)).getD (l.length - 1) ' ' = ' '
            ∨ (l ++ '$' :: (m ++ '$' :: r)).getD (l.length - 1) ' ' = '*')
        then ([' '] : Chars) else []) = spaceUnless l.getLast? := by
      rcases List.eq_nil_or_concat l with rfl | ⟨l₀, c, rfl⟩
      · simp [spaceUnless]
      · simp only [List.concat_eq_append]
        have hg : ((l₀ ++ [c]) ++ '$' :: (m ++ '$' :: r)).getD
            ((l₀ ++ [c]).length - 1) ' ' = c := by
          rw [show (l₀ ++ [c]).length - 1 = l₀.length by simp,
            show (l₀ ++ [c]) ++ '$' :: (m ++ '$' :: r)
              = l₀ ++ (c :: ('$' :: (m ++ '$' :: r))) by simp,
            getD_append_len]
          rfl
        rw [hg, List.getLast?_concat]
        by_cases hc : c = ' ' ∨ c = '*'
        · simp [spaceUnless, hc]
        · simp only [spaceUnless, if_neg hc]
          rw [if_pos ⟨by simp, hc⟩]
    have hpost : (if l.length + m.length + 2 < (l ++ '$' :: (m ++ '$' :: r)).length ∧
          ¬((l ++ '$' :: (m ++ '$' :: r)).getD (l.length + m.length + 2) ' ' = ' '
            ∨ (l ++ '$' :: (m ++ '$' :: r)).getD (l.length + m.length + 2) ' ' = '*')
        then ([' '] : Chars) else []) = spaceUnless r.head? := by
      cases r with
      | nil =>
        rw [if_neg]
        · rfl
        · rw [hlenText]
          simp
      | cons c r' =>
        have hg : (l ++ '$' :: (m ++ '$' :: (c :: r'))).getD
            (l.length + m.length + 2) ' ' = c := by
          rw [show l ++ '$' :: (m ++ '$' :: (c :: r'))
              = (l ++ '$' :: (m ++ ['$'])) ++ (c :: r') by simp,
            show l.length + m.length + 2 = (l ++ '$' :: (m ++ ['$'])).length by
              simp only [List.length_append, List.length_cons, List.length_nil]
              omega,
            getD_append_len]
          rfl
        rw [hg, List.head?_cons]
        by_cases hc : c = ' ' ∨ c = '*'
        · simp [spaceUnless, hc]
        · simp only [spaceUnless, if_neg hc]
          rw [if_pos ⟨by rw [hlenText]; simp only [List.length_cons]; omega, hc⟩]
    rw [htake, hformula, hdropEnd, hpre, hpost]
  · intro t h
    unfold format_latex_formula
    rw [findSpanAux_none t 0 h]

/-- Witness for C8: the spec's example `text$x+y$more` gains a space on
both sides. -/
theorem format_latex_formula_spec_witness :
    format_latex_formula (str "text$x+y$more") = str "text $x+y$ more" := by
  have h := (format_latex_formula_spec (str "text") (str "x+y") (str "more")
    (by decide) (by decide) (by decide)).1
  rw [show str "text$x+y$more"
      = str "text" ++ '$' :: (str "x+y" ++ '$' :: str "more") by decide, h]
  decide

/-- Counterexample for C8 as stated: with two formula regions on one
line the greedy match treats first-`$`-to-last-`$`, producing
`a $x$b$y$ c`, not the claim's first-pair result `a $x$ b$y$c`. -/
theorem format_latex_formula_counterexample :
    format_latex_formula (str "a$x$b$y$c") = str "a $x$b$y$ c" ∧
    str "a $x$b$y$ c" ≠ str "a $x$ b$y$c" := by
  constructor <;> decide

-- ## C2: backfill

theorem splitOnL_ne_nil (sep : Char) (s : Chars) : splitOnL sep s ≠ [] := by
  cases s with
  | nil => simp [splitOnL]
  | cons c cs =>
    simp only [splitOnL]
    by_cases h : c = sep
    · simp [h]
    · rw [if_neg h]
      cases splitOnL sep cs <;> simp

theorem splitOnL_append_not_mem (sep : Char) (xs ys : Chars) (h : sep ∉ xs) :
    splitOnL sep (xs ++ sep :: ys) = xs :: splitOnL sep ys := by
  induction xs with
  | nil => simp [splitOnL]
  | cons c xs' ih =>
    have hc : ¬(c = sep) := fun e => h (e ▸ List.mem_cons_self _ _)
    show splitOnL sep (c :: (xs' ++ sep :: ys)) = _
    simp only [splitOnL]
    rw [if_neg hc, ih (fun hm => h (List.mem_cons_of_mem _ hm))]

theorem splitOnL_not_mem (sep : Char) (xs : Chars) (h : sep ∉ xs) :
    splitOnL sep xs = [xs] := by
  induction xs with
  | nil => rfl
  | cons c xs' ih =>
    have hc : ¬(c = sep) := fun e => h (e ▸ List.mem_cons_self _ _)
    simp only [splitOnL]
    rw [if_neg hc, ih (fun hm => h (List.mem_cons_of_mem _ hm))]

theorem splitOnL_mkTableRowCells (c1 c2 c3 c4 c5 : Chars)
    (h1 : '|' ∉ c1) (h2 : '|' ∉ c2) (h3 : '|' ∉ c3) (h4 : '|' ∉ c4)
    (h5 : '|' ∉ c5) :
    splitOnL '|' (mkTableRowCells c1 c2 c3 c4 c5)
      = [[], c1, c2, c3, c4, c5, ['\n']] := by
  show splitOnL '|' ('|' :: (c1 ++ '|' :: (c2 ++ '|' :: (c3 ++ '|'
    :: (c4 ++ '|' :: (c5 ++ '|' :: ['\n'])))))) = _
  simp only [splitOnL, if_pos rfl]
  rw [splitOnL_append_not_mem '|' c1 _ h1,
    splitOnL_append_not_mem '|' c2 _ h2,
    splitOnL_append_not_mem '|' c3 _ h3,
    splitOnL_append_not_mem '|' c4 _ h4,
    splitOnL_append_not_mem '|' c5 _ h5,
    splitOnL_not_mem '|' ['\n'] (by decide)]
  simp

theorem parse_mkTableRowCells (c1 c2 c3 c4 c5 : Chars)
    (h1 : '|' ∉ c1) (h2 : '|' ∉ c2) (h3 : '|' ∉ c3) (h4 : '|' ∉ c4)
    (h5 : '|' ∉ c5) :
    parse_paper_info_from_markdown (mkTableRowCells c1 c2 c3 c4 c5)
      = match extractBracket (pyStrip c4) with
        | some bracket =>
            some (pyStrip c1, pyStrip c2, pyStrip c3, subVDigits bracket,
              pyStrip c5)
        | none => none := by
  unfold parse_paper_info_from_markdown
  rw [splitOnL_mkTableRowCells c1 c2 c3 c4 c5 h1 h2 h3 h4 h5]
  rfl

theorem isPrefixOf_append_self (p rest : Chars) :
    p.isPrefixOf (p ++ rest) = true := by
  induction p with
  | nil => simp
  | cons c p' ih => simp [List.isPrefixOf_cons₂, ih]

theorem isPrefixOf_pipe_iff (p : Chars) :
    ∀ (xs rest : Chars), '|' ∉ p → '|' ∉ xs →
      ((p ++ ['|']).isPrefixOf (xs ++ '|' :: rest) = true ↔ p = xs) := by
  induction p with
  | nil =>
    intro xs rest _ hxs
    cases xs with
    | nil => simp
    | cons b xs' =>
      have hb : ¬('|' = b) :=
        fun e => hxs (e ▸ List.mem_cons_self _ _)
      simp only [List.nil_append, List.cons_append, List.isPrefixOf_cons₂,
        List.isPrefixOf_nil_left, Bool.and_true]
      constructor
      · intro hbe
        exact absurd (beq_iff_eq.mp hbe) hb
      · intro he
        exact absurd he (by simp)
  | cons a p' ih =>
    intro xs rest hp hxs
    have ha : a ≠ '|' := fun e => hp (e ▸ List.mem_cons_self _ _)
    cases xs with
    | nil =>
      simp only [List.cons_append, List.nil_append, List.isPrefixOf_cons₂]
      constructor
      · intro hb
        have := (Bool.and_eq_true _ _).mp hb
        exact absurd (beq_iff_eq.mp this.1) ha
      · intro he
        exact absurd he (by simp)
    | cons b xs' =>
      simp only [List.cons_append, List.isPrefixOf_cons₂, Bool.and_eq_true,
        beq_iff_eq]
      rw [ih xs' rest (fun hm => hp (List.mem_cons_of_mem _ hm))
        (fun hm => hxs (List.mem_cons_of_mem _ hm))]
      constructor
      · rintro ⟨rfl, rfl⟩; rfl
      · intro he
        injection he with h1 h2
        exact ⟨h1, h2⟩

theorem replaceGo_fuel (pat rep : Chars) :
    ∀ (f f' : Nat) (s : Chars), s.length ≤ f → s.length ≤ f' →
      replaceGo pat rep f s = replaceGo pat rep f' s := by
  intro f
  induction f with
  | zero =>
    intro f' s hf _
    have hs : s = [] := List.eq_nil_of_length_eq_zero (by omega)
    subst hs
    cases f' <;> rfl
  | succ f ih =>
    intro f' s hf hf'
    cases s with
    | nil => cases f' <;> rfl
    | cons c cs =>
      cases f' with
      | zero => simp at hf'
      | succ f'' =>
        simp only [replaceGo]
        by_cases h : pat.isPrefixOf (c :: cs) = true ∧ pat ≠ []
        · rw [if_pos h, if_pos h,
            ih f'' (cs.drop (pat.length - 1))
              (by simp only [List.length_drop]
                  simp only [List.length_cons] at hf
                  omega)
              (by simp only [List.length_drop]
                  simp only [List.length_cons] at hf'
                  omega)]
        · rw [if_neg h, if_neg h,
            ih f'' cs
              (by simp only [List.length_cons] at hf; omega)
              (by simp only [List.length_cons] at hf'; omega)]

theorem replaceGo_no_pipe (rep : Chars) :
    ∀ (f : Nat) (s : Chars), '|' ∉ s →
      replaceGo (str "|null|") rep f s = s := by
  intro f s
  induction s generalizing f with
  | nil => intro _; cases f <;> rfl
  | cons c cs ih =>
    intro h
    have hc : c ≠ '|' := fun e => h (e ▸ List.mem_cons_self _ _)
    cases f with
    | zero => rfl
    | succ f' =>
      simp only [replaceGo]
      rw [if_neg ?hcond, ih f' (fun hm => h (List.mem_cons_of_mem _ hm))]
      case hcond =>
        rintro ⟨hpre, -⟩
        rw [show str "|null|" = '|' :: str "null|" from by decide,
          List.isPrefixOf_cons₂] at hpre
        have := (Bool.and_eq_true _ _).mp hpre
        exact hc (beq_iff_eq.mp this.1).symm

theorem replaceGo_cell (rep : Chars) :
    ∀ (f : Nat) (xs rest : Chars), '|' ∉ xs → (xs ++ rest).length ≤ f →
      replaceGo (str "|null|") rep f (xs ++ rest)
        = xs ++ replaceGo (str "|null|") rep f rest := by
  intro f xs
  induction xs generalizing f with
  | nil => intro rest _ _; rfl
  | cons c xs' ih =>
    intro rest h hf
    have hc : c ≠ '|' := fun e => h (e ▸ List.mem_cons_self _ _)
    cases f with
    | zero => simp at hf
    | succ f' =>
      have hlen : (xs' ++ rest).length ≤ f' := by
        simp only [List.cons_append, List.length_cons] at hf
        omega
      show replaceGo _ _ (f' + 1) (c :: (xs' ++ rest)) = _
      simp only [replaceGo]
      rw [if_neg ?hcond,
        ih f' rest (fun hm => h (List.mem_cons_of_mem _ hm)) hlen,
        replaceGo_fuel (str "|null|") rep f' (f' + 1) rest
          (by simp only [List.length_append] at hlen; omega)
          (by simp only [List.length_append] at hlen; omega)]
      case hcond =>
        rintro ⟨hpre, -⟩
        rw [show str "|null|" = '|' :: str "null|" from by decide,
          List.isPrefixOf_cons₂] at hpre
        have := (Bool.and_eq_true _ _).mp hpre
        exact hc (beq_iff_eq.mp this.1).symm
      rfl

theorem replaceGo_skip_cell (rep : Chars) (f : Nat) (x rest : Chars)
    (hx : '|' ∉ x) (hne : x ≠ str "null")
    (hf : ('|' :: (x ++ '|' :: rest)).length ≤ f) :
    replaceGo (str "|null|") rep f ('|' :: (x ++ '|' :: rest))
      = '|' :: (x ++ replaceGo (str "|null|") rep f ('|' :: rest)) := by
  cases f with
  | zero => simp at hf
  | succ f' =>
    simp only [replaceGo]
    rw [if_neg ?hcond]
    case hcond =>
      rintro ⟨hpre, -⟩
      rw [show str "|null|" = '|' :: (str "null" ++ ['|']) from by decide,
        List.isPrefixOf_cons₂] at hpre
      have hand := (Bool.and_eq_true _ _).mp hpre
      have := (isPrefixOf_pipe_iff (str "null") x rest (by decide) hx).mp hand.2
      exact hne this.symm
    rw [replaceGo_cell rep f' x ('|' :: rest)
        hx (by simp only [List.length_cons] at hf ⊢; omega),
      replaceGo_fuel (str "|null|") rep f' (f' + 1) ('|' :: rest)
        (by simp only [List.length_cons, List.length_append] at hf ⊢; omega)
        (by simp only [List.length_cons, List.length_append] at hf ⊢; omega)]
    rfl

theorem replaceGo_hit (rep rest : Chars) (f : Nat)
    (hf : (str "|null|" ++ rest).length ≤ f) :
    replaceGo (str "|null|") rep f (str "|null|" ++ rest)
      = rep ++ replaceGo (str "|null|") rep f rest := by
  cases f with
  | zero => simp [str] at hf
  | succ f' =>
    show replaceGo _ _ (f' + 1) ('|' :: (str "null|" ++ rest)) = _
    simp only [replaceGo]
    rw [if_pos ⟨isPrefixOf_append_self (str "|null|") rest, by decide⟩]
    rw [show (str "null|" ++ rest).drop ((str "|null|").length - 1) = rest from
      List.drop_left' (by decide)]
    rw [replaceGo_fuel (str "|null|") rep f' (f' + 1) rest
      (by simp only [str, List.length_append] at hf ⊢; simp at hf; omega)
      (by simp only [str, List.length_append] at hf ⊢; simp at hf; omega)]

theorem pyReplace_mkTableRowCells (c1 c2 c3 c4 rep : Chars)
    (h1 : '|' ∉ c1) (h2 : '|' ∉ c2) (h3 : '|' ∉ c3) (h4 : '|' ∉ c4)
    (hn1 : c1 ≠ str "null") (hn2 : c2 ≠ str "null") (hn3 : c3 ≠ str "null")
    (hn4 : c4 ≠ str "null") :
    pyReplace (mkTableRowCells c1 c2 c3 c4 (str "null")) (str "|null|") rep
      = '|' :: (c1 ++ '|' :: (c2 ++ '|' :: (c3 ++ '|' :: (c4
          ++ (rep ++ ['\n']))))) := by
  unfold pyReplace mkTableRowCells
  rw [replaceGo_skip_cell rep _ c1 _ h1 hn1 (le_refl _)]
  rw [replaceGo_skip_cell rep _ c2 _ h2 hn2 ?l2]
  rw [replaceGo_skip_cell rep _ c3 _ h3 hn3 ?l3]
  rw [replaceGo_skip_cell rep _ c4 _ h4 hn4 ?l4]
  rw [show ('|' :: (str "null" ++ '|' :: ['\n']))
      = str "|null|" ++ ['\n'] from by decide]
  rw [replaceGo_hit rep ['\n'] _ ?l5]
  rw [replaceGo_no_pipe rep _ ['\n'] (by decide)]
  case l2 =>
    simp only [List.length_cons, List.length_append]
    omega
  case l3 =>
    simp only [List.length_cons, List.length_append]
    omega
  case l4 =>
    simp only [List.length_cons, List.length_append]
    omega
  case l5 =>
    simp only [str, List.length_cons, List.length_append]
    simp
    omega

theorem backfillEntries_shape (r : Resolver) :
    ∀ (es es' : Entries) (q : List Chars),
      backfillEntries r es = some (es', q) →
      es'.map Prod.fst = es.map Prod.fst := by
  intro es
  induction es with
  | nil =>
    intro es' q h
    simp only [backfillEntries] at h
    injection h with h
    injection h with hA hB
    subst hA
    rfl
  | cons kv rest ih =>
    intro es' q h
    obtain ⟨pid, row⟩ := kv
    simp only [backfillEntries] at h
    cases hbr : backfillRow r row with
    | none =>
      rw [hbr] at h
      exact Option.noConfusion h
    | some rq =>
      obtain ⟨row', q1⟩ := rq
      rw [hbr] at h
      cases hbe : backfillEntries r rest with
      | none =>
        rw [hbe] at h
        exact Option.noConfusion h
      | some sq =>
        obtain ⟨rest', qs⟩ := sq
        rw [hbe] at h
        injection h with h
        injection h with hA hB
        subst hA
        simp only [List.map_cons]
        rw [ih rest' qs hbe]

theorem backfillDoc_shape (r : Resolver) :
    ∀ (doc doc' : Doc) (q : List Chars),
      backfillDoc r doc = some (doc', q) →
      doc'.map (fun te => (te.1, te.2.map Prod.fst))
        = doc.map (fun te => (te.1, te.2.map Prod.fst)) := by
  intro doc
  induction doc with
  | nil =>
    intro doc' q h
    simp only [backfillDoc] at h
    injection h with h
    injection h with hA hB
    subst hA
    rfl
  | cons te rest ih =>
    intro doc' q h
    obtain ⟨t, es⟩ := te
    simp only [backfillDoc] at h
    cases hbe : backfillEntries r es with
    | none =>
      rw [hbe] at h
      exact Option.noConfusion h
    | some eq1 =>
      obtain ⟨es', q1⟩ := eq1
      rw [hbe] at h
      cases hbd : backfillDoc r rest with
      | none =>
        rw [hbd] at h
        exact Option.noConfusion h
      | some dq =>
        obtain ⟨rest', qs⟩ := dq
        rw [hbd] at h
        injection h with h
        injection h with hA hB
        subst hA
        simp only [List.map_cons]
        rw [ih rest' qs hbd, backfillEntries_shape r es es' q1 hbe]

theorem backfillRow_mkTableRowCells (r : Resolver) (c1 c2 c3 c4 c5 idc : Chars)
    (hp1 : '|' ∉ c1) (hp2 : '|' ∉ c2) (hp3 : '|' ∉ c3) (hp4 : '|' ∉ c4)
    (hp5 : '|' ∉ c5) (hb : extractBracket (pyStrip c4) = some idc) :
    backfillRow r (mkTableRowCells c1 c2 c3 c4 c5)
      = if pyStrip c5 = str "null" then
          match r (subVDigits idc) with
          | Except.error _ =>
              some (mkTableRowCells c1 c2 c3 c4 c5, [subVDigits idc])
          | Except.ok none =>
              some (mkTableRowCells c1 c2 c3 c4 c5, [subVDigits idc])
          | Except.ok (some url) =>
              some (pyReplace (mkTableRowCells c1 c2 c3 c4 c5) (str "|null|")
                (str "|**[link](" ++ url ++ str ")**|"), [subVDigits idc])
        else some (mkTableRowCells c1 c2 c3 c4 c5, []) := by
  unfold backfillRow
  rw [parse_mkTableRowCells c1 c2 c3 c4 c5 hp1 hp2 hp3 hp4 hp5, hb]

/-- C2 (amended): only entries whose (stripped) code-link column equals
the `null` sentinel are sent to the resolver and possibly rewritten;
entries already holding a link are neither re-queried nor changed, and
sentinel entries for which no link resolves (including resolver errors)
are not mutated; when a link is found the code replaces EVERY occurrence
of the cell pattern `|null|` in the row (Python `str.replace`), so for
rows in which the sentinel occurs only at the code-link column (cells
pipe-free, no other cell equal to `null`) exactly the code-link column
changes; the backfill never adds, removes or renames a topic or an
entry. -/
theorem update_paper_code_links_spec (r : Resolver) :
    (∀ c1 c2 c3 c4 c5 idc : Chars,
      '|' ∉ c1 → '|' ∉ c2 → '|' ∉ c3 → '|' ∉ c4 → '|' ∉ c5 →
      extractBracket (pyStrip c4) = some idc →
      ((pyStrip c5 ≠ str "null" →
          backfillRow r (mkTableRowCells c1 c2 c3 c4 c5)
            = some (mkTableRowCells c1 c2 c3 c4 c5, [])) ∧
       ((r (subVDigits idc) = Except.error ()
            ∨ r (subVDigits idc) = Except.ok none) →
          backfillRow r (mkTableRowCells c1 c2 c3 c4 (str "null"))
            = some (mkTableRowCells c1 c2 c3 c4 (str "null"),
                [subVDigits idc])) ∧
       (∀ u : Chars, c1 ≠ str "null" → c2 ≠ str "null" → c3 ≠ str "null" →
          c4 ≠ str "null" → r (subVDigits idc) = Except.ok (some u) →
          backfillRow r (mkTableRowCells c1 c2 c3 c4 (str "null"))
            = some (mkTableRowCells c1 c2 c3 c4
                (str "**[link](" ++ u ++ str ")**"), [subVDigits idc])))) ∧
    (∀ (doc doc' : Doc) (log : List Chars),
      backfillDoc r doc = some (doc', log) →
      update_paper_code_links r doc = some doc' ∧
      doc'.map (fun te => (te.1, te.2.map Prod.fst))
        = doc.map (fun te => (te.1, te.2.map Prod.fst))) := by
  constructor
  · intro c1 c2 c3 c4 c5 idc hp1 hp2 hp3 hp4 hp5 hb
    refine ⟨fun hns => ?_, fun hres => ?_, fun u hn1 hn2 hn3 hn4 hres => ?_⟩
    · rw [backfillRow_mkTableRowCells r c1 c2 c3 c4 c5 idc
        hp1 hp2 hp3 hp4 hp5 hb, if_neg hns]
    · rw [backfillRow_mkTableRowCells r c1 c2 c3 c4 (str "null") idc
        hp1 hp2 hp3 hp4 (by decide) hb, if_pos (by decide)]
      rcases hres with hres | hres <;> rw [hres]
    · rw [backfillRow_mkTableRowCells r c1 c2 c3 c4 (str "null") idc
        hp1 hp2 hp3 hp4 (by decide) hb, if_pos (by decide), hres]
      show some (pyReplace (mkTableRowCells c1 c2 c3 c4 (str "null"))
        (str "|null|") (str "|**[link](" ++ u ++ str ")**|"),
        [subVDigits idc]) = _
      rw [pyReplace_mkTableRowCells c1 c2 c3 c4
        (str "|**[link](" ++ u ++ str ")**|") hp1 hp2 hp3 hp4 hn1 hn2 hn3 hn4]
      have hrep : (str "|**[link](" ++ u ++ str ")**|") ++ ['\n']
          = '|' :: ((str "**[link](" ++ u ++ str ")**") ++ '|' :: ['\n']) := by
        rw [show str "|**[link](" = '|' :: str "**[link](" from by decide,
          show str ")**|" = str ")**" ++ ['|'] from by decide]
        simp [List.append_assoc]
      rw [show c4 ++ ((str "|**[link](" ++ u ++ str ")**|") ++ ['\n'])
          = c4 ++ '|' :: ((str "**[link](" ++ u ++ str ")**") ++ '|' :: ['\n'])
        from by rw [hrep]]
      rfl
  · intro doc doc' log h
    constructor
    · unfold update_paper_code_links
      rw [h]
      rfl
    · exact backfillDoc_shape r doc doc' log h

/-- Witness for C2: a canonical sentinel row is rewritten to hold the
resolved link in its code column; the identifier (version-stripped by
the backfill's own regex) is the one queried. -/
theorem update_paper_code_links_spec_witness :
    backfillRow (fun _ => Except.ok (some (str "https://github.com/a/b")))
        (mkTableRowCells (str "**2024-01-01**") (str "**Title**")
          (str "A et.al.")
          (str "[2108.09112v2](http://arxiv.org/abs/2108.09112)")
          (str "null"))
      = some (mkTableRowCells (str "**2024-01-01**") (str "**Title**")
          (str "A et.al.")
          (str "[2108.09112v2](http://arxiv.org/abs/2108.09112)")
          (str "**[link](https://github.com/a/b)**"),
        [str "2108.09112"]) := by
  have h := ((update_paper_code_links_spec
      (fun _ => Except.ok (some (str "https://github.com/a/b")))).1
    (str "**2024-01-01**") (str "**Title**") (str "A et.al.")
    (str "[2108.09112v2](http://arxiv.org/abs/2108.09112)") (str "null")
    (str "2108.09112v2")
    (by decide) (by decide) (by decide) (by decide) (by decide)
    (by decide)).2.2
    (str "https://github.com/a/b")
    (by decide) (by decide) (by decide) (by decide) rfl
  refine h.trans ?_
  decide

/-- Counterexample for C2 as stated: a store row whose TITLE cell is the
literal `null` — when the resolver finds a link, `str.replace` rewrites
the title column as well as the code-link column, so "every other column
of that row is byte-identical" fails. -/
theorem update_paper_code_links_counterexample :
    update_paper_code_links (fun _ => Except.ok (some (str "u")))
        [(str "T", [(str "2108.09112",
          str "|**2024-01-01**|null|A et.al.|[2108.09112](http://arxiv.org/abs/2108.09112)|null|\n")])]
      = some [(str "T", [(str "2108.09112",
          str "|**2024-01-01**|**[link](u)**|A et.al.|[2108.09112](http://arxiv.org/abs/2108.09112)|**[link](u)**|\n")])] ∧
    str "|**2024-01-01**|**[link](u)**|A et.al.|[2108.09112](http://arxiv.org/abs/2108.09112)|**[link](u)**|\n"
      ≠ str "|**2024-01-01**|null|A et.al.|[2108.09112](http://arxiv.org/abs/2108.09112)|**[link](u)**|\n" := by
  constructor <;> decide
